import Mathlib

set_option linter.dupNamespace false

/-!
Shallow embedding of the `quandl` Rust client library
(request construction and response decoding), together with proofs of
the specification's claims about it.

Sources embedded:
- `src/quandl_request.rs` — the data-query request (`QuandlRequest`):
  parameter model, date validation, query serialization, `run`.
- `src/requests/dataset_list_call.rs` — the code-listing request
  (`DatasetListCall`): URL, ZIP entry-count check, CSV row decoding.
- `src/error.rs` — the `Error` enum.
- `src/quandl.rs` — the `Quandl` session handle.

Machine integers (`u64`) are modelled as `Nat`; none of the verified
operations can overflow a `u64` in a way the claims depend on.
Strings are Lean `String`s; where character-level reasoning is needed
(splitting a column on `/`), the code is embedded over `List Char`.
External collaborators (the hyper HTTP transport, serde_json, the zip
and quick_csv decoders) are modelled at their interfaces: the JSON
decoder is a parameter of `run`, the ZIP/CSV layers deliver an
already-parsed archive of two-column rows, and hyper's URI parser is a
character-set validity check (it rejects characters such as spaces
that are not legal in a URI).
-/

namespace Quandl

/-- `src/error.rs`: the `Error` enum (`quick_error!`); each variant
carries its display/diagnostic text. -/
inductive Error where
  | Hyper (msg : String)
  | SerdeJson (msg : String)
  | Chrono (msg : String)
  | Quandl (msg : String)
  | Date (msg : String)
  | Url (msg : String)
deriving DecidableEq, Repr

/-- `chrono::NaiveDate`: a calendar date with no time component. -/
structure NaiveDate where
  year : Int
  month : Nat
  day : Nat
deriving DecidableEq, Repr

/-- chrono's `Ord` on `NaiveDate`: calendar order, i.e. lexicographic
on (year, month, day). -/
def NaiveDate.ltb (a b : NaiveDate) : Bool :=
  a.year < b.year ||
    (a.year = b.year &&
      (a.month < b.month || (a.month = b.month && a.day < b.day)))

/-- `a > b` on dates, as used by `validate_date`. -/
def NaiveDate.gtb (a b : NaiveDate) : Bool :=
  NaiveDate.ltb b a

/-- Zero-pad a natural number to the given width (digits of `%Y`/`%m`/`%d`). -/
def padNat (width : Nat) (n : Nat) : String :=
  let s := toString n
  if s.length < width then
    String.mk (List.replicate (width - s.length) '0') ++ s
  else s

/-- chrono's `Display` for `NaiveDate`: `%Y-%m-%d` (year zero-padded to
four digits, sign prepended for negative years). -/
def NaiveDate.display (d : NaiveDate) : String :=
  let y := if d.year < 0 then "-" ++ padNat 4 d.year.natAbs else padNat 4 d.year.toNat
  y ++ "-" ++ padNat 2 d.month ++ "-" ++ padNat 2 d.day

/-- `src/quandl_request.rs`: the `Order` enum. -/
inductive Order where
  | Asc
  | Desc
deriving DecidableEq, Repr

/-- `Display for Order`. -/
def Order.display : Order → String
  | Order.Asc => "asc"
  | Order.Desc => "desc"

/-- `src/quandl_request.rs`: the `Collapse` enum. -/
inductive Collapse where
  | Daily
  | Weekly
  | Monthly
  | Quarterly
  | Annual
deriving DecidableEq, Repr

/-- `Display for Collapse`. -/
def Collapse.display : Collapse → String
  | Collapse.Daily => "daily"
  | Collapse.Weekly => "weekly"
  | Collapse.Monthly => "monthly"
  | Collapse.Quarterly => "quarterly"
  | Collapse.Annual => "annual"

/-- `src/quandl_request.rs`: the `Transform` enum. -/
inductive Transform where
  | Diff
  | Rdiff
  | Cumul
  | Normalize
deriving DecidableEq, Repr

/-- `Display for Transform`. -/
def Transform.display : Transform → String
  | Transform.Diff => "diff"
  | Transform.Rdiff => "rdiff"
  | Transform.Cumul => "cumul"
  | Transform.Normalize => "normalize"

/-- `src/quandl.rs`: the `Quandl` session handle. The hyper
`http_client` transport is an external collaborator and carries no
state the claims depend on; only the `api_key` is modelled. -/
structure Quandl where
  api_key : Option String
deriving DecidableEq, Repr

/-- `Quandl::new()` / `Default for Quandl`: no API key. -/
def Quandl.new : Quandl := { api_key := none }

/-- `Quandl::api_key`: fluent setter producing an updated session. -/
def Quandl.set_api_key (q : Quandl) (key : String) : Quandl :=
  { q with api_key := some key }

/-- `src/quandl_request.rs`: the `QuandlRequest` parameter model.
`u64` fields are modelled as `Nat`. -/
structure QuandlRequest where
  quandl : Quandl
  database_code : String
  dataset_code : String
  limit : Option Nat
  rows : Option Nat
  column_index : Option Nat
  start_date : Option NaiveDate
  end_date : Option NaiveDate
  order : Option Order
  collapse : Option Collapse
  transform : Option Transform
deriving DecidableEq, Repr

namespace QuandlRequest

/-- `QuandlRequest::default`: every optional parameter `None`, codes empty. -/
def default (q : Quandl) : QuandlRequest :=
  { quandl := q
    database_code := ""
    dataset_code := ""
    limit := none
    rows := none
    column_index := none
    start_date := none
    end_date := none
    order := none
    collapse := none
    transform := none }

/-- `Quandl::new_request` (test factory) / `new_dataset_data_call`:
default request with the two codes populated. -/
def new_request (q : Quandl) (database_code dataset_code : String) : QuandlRequest :=
  { QuandlRequest.default q with
      database_code := database_code
      dataset_code := dataset_code }

/-- `QuandlRequest::limit`. -/
def set_limit (r : QuandlRequest) (n : Nat) : QuandlRequest :=
  { r with limit := some n }

/-- `QuandlRequest::rows`. -/
def set_rows (r : QuandlRequest) (n : Nat) : QuandlRequest :=
  { r with rows := some n }

/-- `QuandlRequest::column_index`. -/
def set_column_index (r : QuandlRequest) (n : Nat) : QuandlRequest :=
  { r with column_index := some n }

/-- `QuandlRequest::order`. -/
def set_order (r : QuandlRequest) (o : Order) : QuandlRequest :=
  { r with order := some o }

/-- `QuandlRequest::collapse`. -/
def set_collapse (r : QuandlRequest) (c : Collapse) : QuandlRequest :=
  { r with collapse := some c }

/-- `QuandlRequest::transform`. -/
def set_transform (r : QuandlRequest) (t : Transform) : QuandlRequest :=
  { r with transform := some t }

end QuandlRequest

/-- `validate_date`: fail with a `Date` error when both dates are
present and `start_date > end_date`. -/
def validate_date (start_date end_date : Option NaiveDate) : Except Error Unit :=
  match start_date, end_date with
  | some s, some e =>
      if NaiveDate.gtb s e then
        Except.error (Error.Date
          ("start date `" ++ s.display ++ "` is after end date `" ++ e.display ++ "`"))
      else Except.ok ()
  | _, _ => Except.ok ()

/-- `impl DateInput for NaiveDate`, `set_start_date`: validate the new
start date against whatever end date is present, then assign.
Combined with the `QuandlRequest::start_date` wrapper that returns the
updated request. -/
def QuandlRequest.set_start_date (r : QuandlRequest) (d : NaiveDate) :
    Except Error QuandlRequest :=
  match validate_date (some d) r.end_date with
  | Except.error err => Except.error err
  | Except.ok _ => Except.ok { r with start_date := some d }

/-- `impl DateInput for NaiveDate`, `set_end_date`: validate the
present start date against the new end date, then assign. Combined
with the `QuandlRequest::end_date` wrapper. -/
def QuandlRequest.set_end_date (r : QuandlRequest) (d : NaiveDate) :
    Except Error QuandlRequest :=
  match validate_date r.start_date (some d) with
  | Except.error err => Except.error err
  | Except.ok _ => Except.ok { r with end_date := some d }

/-- `set_query_pair`: push `(key, value.to_string())` when the option
is set, nothing otherwise. The `Display` rendering of the field type
is passed explicitly. -/
def set_query_pair {T : Type} (display : T → String)
    (query : List (String × String)) (key : String) (opt : Option T) :
    List (String × String) :=
  match opt with
  | some v => query ++ [(key, display v)]
  | none => query

/-- `QUANDL_BASE_URL` in `src/quandl_request.rs`. -/
def QUANDL_BASE_URL : String := "https://www.quandl.com/api/v3/datasets"

/-- The query vector built inside `QuandlRequest::get_uri`: the nine
`set_query_pair` calls, in source order. -/
def QuandlRequest.get_uri_query (r : QuandlRequest) : List (String × String) :=
  let query : List (String × String) := []
  let query := set_query_pair id query "api_key" r.quandl.api_key
  let query := set_query_pair (fun n : Nat => toString n) query "limit" r.limit
  let query := set_query_pair (fun n : Nat => toString n) query "rows" r.rows
  let query := set_query_pair (fun n : Nat => toString n) query "column_index" r.column_index
  let query := set_query_pair NaiveDate.display query "start_date" r.start_date
  let query := set_query_pair NaiveDate.display query "end_date" r.end_date
  let query := set_query_pair Order.display query "order" r.order
  let query := set_query_pair Collapse.display query "collapse" r.collapse
  let query := set_query_pair Transform.display query "transform" r.transform
  query

/-- `"&"`-join of `"{key}={value}"` for each query pair. -/
def joinQueryParams (query : List (String × String)) : String :=
  String.intercalate "&" (query.map (fun kv => kv.1 ++ "=" ++ kv.2))

/-- The URI string assembled by `QuandlRequest::get_uri` before it is
handed to `hyper::Uri::parse`. -/
def QuandlRequest.get_uri_string (r : QuandlRequest) : String :=
  let uri := QUANDL_BASE_URL ++ "/" ++ r.database_code ++ "/" ++ r.dataset_code ++ "/data.json"
  let query := r.get_uri_query
  if query.isEmpty then uri
  else uri ++ "?" ++ joinQueryParams query

/-- Model of hyper's URI character set: a byte is legal in a URI only
if it is visible ASCII and not one of the delimiters the parser
rejects (`<` `>` `"` `\x7b` `\x7d` `|` `\` `^` and the backquote,
written here by code point). In particular spaces and control
characters are rejected. -/
def hyperUriAllowedChar (c : Char) : Bool :=
  let n := c.toNat
  0x21 ≤ n && n ≤ 0x7e &&
    !([0x3c, 0x3e, 0x22, 0x7b, 0x7d, 0x7c, 0x5c, 0x5e, 0x60].contains n)

/-- Model of `str::parse::<hyper::Uri>`: succeeds exactly when every
character of the (non-empty) string is legal in a URI. The parsed
`Uri` is represented by its string. -/
def hyperUriParse (s : String) : Option String :=
  if s.length = 0 then none
  else if s.toList.all hyperUriAllowedChar then some s else none

/-- `QuandlRequest::get_uri`, including its final
`uri.parse::<hyper::Uri>().unwrap()`: the `none` outcome models the
panic that `unwrap` raises when the assembled string is not a valid
URI (the builder applies no percent-encoding before parsing). -/
def QuandlRequest.get_uri (r : QuandlRequest) : Option String :=
  hyperUriParse r.get_uri_string

/-- One HTTP response as the external hyper transport delivers it to
`run`: a status code and an aggregated body. -/
structure HttpResponse (Body : Type) where
  status : Nat
  body : Body

/-- Model of `hyper::StatusCode`'s rendering via `{}`: the status code
digits (hyper also appends the canonical reason phrase; only the
digits matter to the claims, and they are a prefix of either form). -/
def statusDisplay (status : Nat) : String := toString status

/-- The response-handling branch of `QuandlRequest::run`
(`src/quandl_request.rs` lines 250-268). The URL construction and the
HTTP GET precede this; the external `serde_json::from_reader` decoder
is the parameter `decode` (its `Err` converts to `Error::SerdeJson`
via the `?` operator), and `dbg` is the external `{:?}` rendering of
the decoded JSON value. -/
def QuandlRequest.run {Body J : Type} (decode : Body → Except String J)
    (dbg : J → String) (resp : HttpResponse Body) : Except Error J :=
  if resp.status = 200 then
    match decode resp.body with
    | Except.ok data => Except.ok data
    | Except.error e => Except.error (Error.SerdeJson e)
  else
    match decode resp.body with
    | Except.ok data =>
        Except.error (Error.Quandl
          ("quandl request failed with code `" ++ statusDisplay resp.status ++
            "` and response: " ++ dbg data))
    | Except.error e => Except.error (Error.SerdeJson e)

/-! ## The code-listing call (`src/requests/dataset_list_call.rs`) -/

/-- `QUANDL_DATABASE_URL`. -/
def QUANDL_DATABASE_URL : String := "https://www.quandl.com/api/v3/databases"

/-- `SEPARATOR`. -/
def SEPARATOR : Char := '/'

/-- `DatasetListCall`: database code plus the session reference. -/
structure DatasetListCall where
  database_code : String
  quandl : Quandl
deriving DecidableEq, Repr

/-- `Quandl::new_dataset_list_call`. -/
def Quandl.new_dataset_list_call (q : Quandl) (database_code : String) :
    DatasetListCall :=
  { database_code := database_code, quandl := q }

/-- `DatasetListCall::get_url`:
`Url::parse(format!("{}/{}/codes.csv", QUANDL_DATABASE_URL, database_code))`
wrapped in `Ok`/`try!`. The external `url::Url` parser is modelled as
succeeding with the assembled string (the url crate percent-encodes
unusual path bytes rather than rejecting them, and the fixed scheme
and host here always parse). -/
def DatasetListCall.get_url (c : DatasetListCall) : Except Error String :=
  Except.ok (QUANDL_DATABASE_URL ++ "/" ++ c.database_code ++ "/codes.csv")

/-- `DatasetCode`: one decoded listing record. -/
structure DatasetCode where
  code : String
  desc : String
deriving DecidableEq, Repr

/-- One CSV row of the listing as the external quick_csv
`decode::<(String, String)>` delivers it: the `{database}/{code}`
column and the description column. -/
abbrev CsvRow := String × String

/-- The listing response body after the external zip and CSV layers:
the archive's entries, each entry already decoded into its two-column
rows. -/
structure ZipArchive where
  entries : List (List CsvRow)

/-- Rust's `str::split(sep)` over the characters of the string: always
at least one (possibly empty) segment; a separator character ends the
current segment and starts a new one. -/
def rustSplit (sep : Char) : List Char → List (List Char)
  | [] => [[]]
  | c :: rest =>
      if c = sep then [] :: rustSplit sep rest
      else
        match rustSplit sep rest with
        | seg :: segs => (c :: seg) :: segs
        | [] => [[c]]

/-- The body of the per-row closure in `DatasetListCall::run`:
`db_with_code.find(SEPARATOR)` selects the branch; on success the code
is `db_with_code.split(SEPARATOR).last().unwrap()` (the split iterator
is never empty, so `last` is total here). -/
def decode_row (row : CsvRow) : Except Error DatasetCode :=
  if row.1.toList.contains SEPARATOR then
    Except.ok
      { code := String.mk ((rustSplit SEPARATOR row.1.toList).getLastD [])
        desc := row.2 }
  else
    Except.error (Error.Quandl ("error: `/` not found in `" ++ row.1 ++ "`"))

/-- The `.map(..).collect::<Result<Vec<_>, _>>()` at the end of
`DatasetListCall::run`: decode the rows in order, aborting at the
first failing row. -/
def collectRows : List CsvRow → Except Error (List DatasetCode)
  | [] => Except.ok []
  | row :: rest =>
      match decode_row row with
      | Except.error err => Except.error err
      | Except.ok rec2 =>
          match collectRows rest with
          | Except.error err => Except.error err
          | Except.ok recs => Except.ok (rec2 :: recs)

/-- `DatasetListCall::run` from the point where the response bytes
have been opened as a ZIP archive (transport, zip and CSV decoding are
external): reject any entry count other than one, then decode each row
of the single entry, collecting into a single `Result` so the first
failing row aborts the whole listing. -/
def DatasetListCall.run (zip : ZipArchive) : Except Error (List DatasetCode) :=
  match zip.entries with
  | [csv] => collectRows csv
  | es =>
      Except.error (Error.Quandl
        ("Expected one file in zip archive, found: " ++ toString es.length))

/-! ## Helper lemmas -/

/-- `set_query_pair` appends the rendered pair when the option is set
and nothing otherwise. -/
theorem set_query_pair_eq {T : Type} (display : T → String)
    (query : List (String × String)) (key : String) (opt : Option T) :
    set_query_pair display query key opt =
      query ++ (opt.map (fun v => (key, display v))).toList := by
  cases opt <;> simp [set_query_pair]

/-- `rustSplit` never returns an empty list of segments. -/
theorem rustSplit_ne_nil (sep : Char) (l : List Char) :
    rustSplit sep l ≠ [] := by
  cases l with
  | nil => simp [rustSplit]
  | cons c rest =>
      simp only [rustSplit]
      split
      · simp
      · split <;> simp

/-- If the separator does not occur, `rustSplit` yields the one
original segment. -/
theorem rustSplit_of_not_mem (sep : Char) (l : List Char)
    (h : sep ∉ l) : rustSplit sep l = [l] := by
  induction l with
  | nil => rfl
  | cons c rest ih =>
      have hc : ¬ c = sep := fun hc => h (hc ▸ List.mem_cons_self c rest)
      have hrest : sep ∉ rest := fun hm => h (List.mem_cons_of_mem c hm)
      simp only [rustSplit, if_neg hc, ih hrest]

/-- If the separator occurs, `rustSplit` yields at least two segments. -/
theorem rustSplit_two_le_length (sep : Char) (l : List Char)
    (h : sep ∈ l) : 2 ≤ (rustSplit sep l).length := by
  induction l with
  | nil => simp at h
  | cons c rest ih =>
      by_cases hc : c = sep
      · subst hc
        have hrw : rustSplit c (c :: rest) = [] :: rustSplit c rest := by
          simp [rustSplit]
        have h1 : rustSplit c rest ≠ [] := rustSplit_ne_nil c rest
        have h2 := List.length_pos.mpr h1
        rw [hrw, List.length_cons]
        omega
      · have hrest : sep ∈ rest := by
          cases List.mem_cons.mp h with
          | inl he => exact absurd he.symm hc
          | inr hm => exact hm
        rcases hsplit : rustSplit sep rest with _ | ⟨seg, segs⟩
        · exact absurd hsplit (rustSplit_ne_nil sep rest)
        · have := ih hrest
          rw [hsplit] at this
          simp only [rustSplit, if_neg hc, hsplit, List.length_cons] at *
          omega

/-- The last segment of `rustSplit` is the suffix after the last
separator: it contains no separator, and when the separator occurs in
the input, the input is some prefix, the separator, then that last
segment. -/
theorem rustSplit_getLastD (sep : Char) (l : List Char) :
    sep ∉ (rustSplit sep l).getLastD [] ∧
    (sep ∈ l → ∃ pre : List Char,
      l = pre ++ sep :: (rustSplit sep l).getLastD []) := by
  induction l with
  | nil => exact ⟨by simp [rustSplit], by simp⟩
  | cons c rest ih =>
      obtain ⟨ih1, ih2⟩ := ih
      by_cases hc : c = sep
      · subst hc
        have hrw : (rustSplit c (c :: rest)).getLastD [] =
            (rustSplit c rest).getLastD [] := by
          have : rustSplit c (c :: rest) = [] :: rustSplit c rest := by
            simp [rustSplit]
          rw [this, List.getLastD_cons]
        refine ⟨hrw ▸ ih1, fun _ => ?_⟩
        rw [hrw]
        by_cases hm : c ∈ rest
        · obtain ⟨pre, hpre⟩ := ih2 hm
          exact ⟨c :: pre, by rw [List.cons_append, ← hpre]⟩
        · rw [rustSplit_of_not_mem c rest hm]
          exact ⟨[], by simp⟩
      · rcases hsplit : rustSplit sep rest with _ | ⟨seg, segs⟩
        · exact absurd hsplit (rustSplit_ne_nil sep rest)
        · have hrw : rustSplit sep (c :: rest) = (c :: seg) :: segs := by
            simp only [rustSplit, if_neg hc, hsplit]
          cases segs with
          | nil =>
              have hnm : sep ∉ rest := by
                intro hm
                have := rustSplit_two_le_length sep rest hm
                rw [hsplit] at this
                simp at this
              have hseg : seg = rest := by
                have := rustSplit_of_not_mem sep rest hnm
                rw [hsplit] at this
                exact (List.cons.injEq _ _ _ _ ▸ this).1
              subst hseg
              constructor
              · rw [hrw]
                simp only [List.getLastD_cons, List.getLastD_nil]
                intro hm
                cases List.mem_cons.mp hm with
                | inl he => exact hc he.symm
                | inr hm2 => exact hnm hm2
              · intro hm
                cases List.mem_cons.mp hm with
                | inl he => exact absurd he.symm hc
                | inr hm2 => exact absurd hm2 hnm
          | cons z zs =>
              have hrw2 : (rustSplit sep (c :: rest)).getLastD [] =
                  (rustSplit sep rest).getLastD [] := by
                rw [hrw, hsplit]
                simp only [List.getLastD_cons]
              refine ⟨hrw2 ▸ ih1, fun hm => ?_⟩
              have hrest : sep ∈ rest := by
                cases List.mem_cons.mp hm with
                | inl he => exact absurd he.symm hc
                | inr hm2 => exact hm2
              obtain ⟨pre, hpre⟩ := ih2 hrest
              rw [hrw2]
              exact ⟨c :: pre, by rw [List.cons_append, ← hpre]⟩

/-- The record a well-formed listing row decodes to. -/
def rowRecord (row : CsvRow) : DatasetCode :=
  { code := String.mk ((rustSplit SEPARATOR row.1.toList).getLastD [])
    desc := row.2 }

/-- A well-formed row decodes to its record. -/
theorem decode_row_ok (row : CsvRow) (h : SEPARATOR ∈ row.1.toList) :
    decode_row row = Except.ok (rowRecord row) := by
  simp only [decode_row, rowRecord]
  rw [if_pos (List.elem_iff.mpr h)]

/-- A row without the separator fails with the naming error. -/
theorem decode_row_err (row : CsvRow) (h : SEPARATOR ∉ row.1.toList) :
    decode_row row =
      Except.error (Error.Quandl
        ("error: `/` not found in `" ++ row.1 ++ "`")) := by
  simp only [decode_row]
  rw [if_neg (fun hc => h (List.elem_iff.mp hc))]

/-- Decoding every row of a CSV whose rows are all well-formed yields
the records in row order. -/
theorem collectRows_ok (rows : List CsvRow)
    (h : ∀ row ∈ rows, SEPARATOR ∈ row.1.toList) :
    collectRows rows = Except.ok (rows.map rowRecord) := by
  induction rows with
  | nil => rfl
  | cons row rest ih =>
      have hrow := decode_row_ok row (h row (List.mem_cons_self row rest))
      have hrest := ih (fun r hr => h r (List.mem_cons_of_mem row hr))
      simp only [collectRows, hrow, hrest, List.map_cons]

/-- Decoding a CSV whose first malformed row is `row` fails with the
error naming that row's first column. -/
theorem collectRows_err (pre : List CsvRow) (row : CsvRow)
    (post : List CsvRow)
    (hpre : ∀ p ∈ pre, SEPARATOR ∈ p.1.toList)
    (hbad : SEPARATOR ∉ row.1.toList) :
    collectRows (pre ++ row :: post) =
      Except.error (Error.Quandl
        ("error: `/` not found in `" ++ row.1 ++ "`")) := by
  induction pre with
  | nil =>
      simp only [List.nil_append, collectRows, decode_row_err row hbad]
  | cons p ps ih =>
      have hp := decode_row_ok p (hpre p (List.mem_cons_self p ps))
      have hps := ih (fun q hq => hpre q (List.mem_cons_of_mem p hq))
      simp only [List.cons_append, collectRows, hp, List.append_eq, hps]

/-! ## Claims -/

/-- C1: for every data request, the serialized query holds exactly one
key/value pair per optional field that is set, in the fixed order
api_key, limit, rows, column_index, start_date, end_date, order,
collapse, transform, and an absent field contributes no key at all.
The query vector is exactly the concatenation, in that order, of the
zero-or-one-element lists the nine optional fields contribute. -/
theorem get_uri_query_exact (r : QuandlRequest) :
    r.get_uri_query =
      (r.quandl.api_key.map (fun v => ("api_key", v))).toList ++
      (r.limit.map (fun n => ("limit", toString n))).toList ++
      (r.rows.map (fun n => ("rows", toString n))).toList ++
      (r.column_index.map (fun n => ("column_index", toString n))).toList ++
      (r.start_date.map (fun d => ("start_date", d.display))).toList ++
      (r.end_date.map (fun d => ("end_date", d.display))).toList ++
      (r.order.map (fun o => ("order", o.display))).toList ++
      (r.collapse.map (fun c => ("collapse", c.display))).toList ++
      (r.transform.map (fun t => ("transform", t.display))).toList := by
  simp [QuandlRequest.get_uri_query, set_query_pair_eq]

/-- C9: enum-to-token serialization is exhaustive and fixed: the two
`Order` variants, five `Collapse` variants and four `Transform`
variants each map to their exact lowercase token. -/
theorem enum_display_table :
    (Order.display Order.Asc = "asc" ∧ Order.display Order.Desc = "desc") ∧
    (Collapse.display Collapse.Daily = "daily" ∧
      Collapse.display Collapse.Weekly = "weekly" ∧
      Collapse.display Collapse.Monthly = "monthly" ∧
      Collapse.display Collapse.Quarterly = "quarterly" ∧
      Collapse.display Collapse.Annual = "annual") ∧
    (Transform.display Transform.Diff = "diff" ∧
      Transform.display Transform.Rdiff = "rdiff" ∧
      Transform.display Transform.Cumul = "cumul" ∧
      Transform.display Transform.Normalize = "normalize") ∧
    (∀ o : Order, Order.display o = "asc" ∨ Order.display o = "desc") ∧
    (∀ c : Collapse, Collapse.display c ∈
      ["daily", "weekly", "monthly", "quarterly", "annual"]) ∧
    (∀ t : Transform, Transform.display t ∈
      ["diff", "rdiff", "cumul", "normalize"]) := by
  refine ⟨⟨rfl, rfl⟩, ⟨rfl, rfl, rfl, rfl, rfl⟩, ⟨rfl, rfl, rfl, rfl⟩, ?_, ?_, ?_⟩
  · intro o; cases o <;> simp [Order.display]
  · intro c; cases c <;> simp [Collapse.display]
  · intro t; cases t <;> simp [Transform.display]

/-- C5: a listing response whose ZIP archive has an entry count other
than one fails with a remote-API error identifying the observed
count. -/
theorem run_wrong_entry_count (zip : ZipArchive)
    (h : zip.entries.length ≠ 1) :
    DatasetListCall.run zip =
      Except.error (Error.Quandl
        ("Expected one file in zip archive, found: " ++
          toString zip.entries.length)) := by
  match zip with
  | ⟨[]⟩ => rfl
  | ⟨[csv]⟩ => simp at h
  | ⟨a :: b :: t⟩ => rfl

/-- Witness for C5 at concrete entry counts zero and two. -/
theorem run_wrong_entry_count_witness :
    ((⟨[]⟩ : ZipArchive).entries.length ≠ 1 ∧
      DatasetListCall.run ⟨[]⟩ =
        Except.error (Error.Quandl
          "Expected one file in zip archive, found: 0")) ∧
    ((⟨[[], []]⟩ : ZipArchive).entries.length ≠ 1 ∧
      DatasetListCall.run ⟨[[], []]⟩ =
        Except.error (Error.Quandl
          "Expected one file in zip archive, found: 2")) := by
  refine ⟨⟨by decide, ?_⟩, ⟨by decide, ?_⟩⟩
  · have h := run_wrong_entry_count ⟨[]⟩ (by decide)
    simpa using h
  · have h := run_wrong_entry_count ⟨[[], []]⟩ (by decide)
    simpa using h

/-- C10: every listing request's URL is exactly
`https://www.quandl.com/api/v3/databases/{database_code}/codes.csv`
with no query string appended, and the session's api_key is never
transmitted: the URL does not depend on the api_key, and (whenever the
database code itself contains no `?`) the URL contains no `?` at
all. -/
theorem dataset_list_get_url (c : DatasetListCall) :
    c.get_url =
      Except.ok ("https://www.quandl.com/api/v3/databases/" ++
        c.database_code ++ "/codes.csv") ∧
    (∀ k, (DatasetListCall.mk c.database_code
        (c.quandl.set_api_key k)).get_url = c.get_url) ∧
    (('?' ∈ c.database_code.toList → False) →
      ∀ u, c.get_url = Except.ok u → '?' ∈ u.toList → False) := by
  refine ⟨rfl, fun k => rfl, ?_⟩
  intro hdb u hu hq
  have hu2 : "https://www.quandl.com/api/v3/databases/" ++
      c.database_code ++ "/codes.csv" = u := by
    simpa [DatasetListCall.get_url, QUANDL_DATABASE_URL] using hu
  subst hu2
  simp only [String.toList, String.data_append, List.mem_append] at hq
  rcases hq with (hq | hq) | hq
  · revert hq; decide
  · exact hdb hq
  · revert hq; decide

/-- C2: on a request with no dates set, for any pair of dates with
s > e, applying the start-date setter and then the end-date setter, or
the end-date setter and then the start-date setter, errors at the
second call with a date-range error; for s ≤ e both orders succeed
with no error. -/
theorem date_setters_both_orders (r : QuandlRequest) (s e : NaiveDate)
    (hs : r.start_date = none) (he : r.end_date = none) :
    (NaiveDate.gtb s e = true →
      r.set_start_date s = Except.ok { r with start_date := some s } ∧
      QuandlRequest.set_end_date { r with start_date := some s } e =
        Except.error (Error.Date ("start date `" ++ s.display ++
          "` is after end date `" ++ e.display ++ "`")) ∧
      r.set_end_date e = Except.ok { r with end_date := some e } ∧
      QuandlRequest.set_start_date { r with end_date := some e } s =
        Except.error (Error.Date ("start date `" ++ s.display ++
          "` is after end date `" ++ e.display ++ "`"))) ∧
    (NaiveDate.gtb s e = false →
      (r.set_start_date s).bind (fun r1 => r1.set_end_date e) =
        Except.ok { r with start_date := some s, end_date := some e } ∧
      (r.set_end_date e).bind (fun r1 => r1.set_start_date s) =
        Except.ok { r with start_date := some s, end_date := some e }) := by
  constructor <;> intro h <;>
    simp [QuandlRequest.set_start_date, QuandlRequest.set_end_date,
      validate_date, hs, he, h, Except.bind]

/-- Witness for C2: a fresh WIKI/AAPL request, dates 2015-03-10 and
2015-01-10 (start after end), start set first. -/
theorem date_setters_both_orders_witness :
    (QuandlRequest.new_request Quandl.new "WIKI" "AAPL").start_date = none ∧
    (QuandlRequest.new_request Quandl.new "WIKI" "AAPL").end_date = none ∧
    NaiveDate.gtb ⟨2015, 3, 10⟩ ⟨2015, 1, 10⟩ = true ∧
    QuandlRequest.set_end_date
        { QuandlRequest.new_request Quandl.new "WIKI" "AAPL" with
            start_date := some ⟨2015, 3, 10⟩ } ⟨2015, 1, 10⟩ =
      Except.error (Error.Date
        "start date `2015-03-10` is after end date `2015-01-10`") := by
  refine ⟨rfl, rfl, by decide, ?_⟩
  have h := ((date_setters_both_orders
    (QuandlRequest.new_request Quandl.new "WIKI" "AAPL")
    ⟨2015, 3, 10⟩ ⟨2015, 1, 10⟩ rfl rfl).1 (by decide)).2.1
  simpa using h

/-- Requests reachable from the factory (both dates `None`) through
any sequence of successful setter calls. The polymorphic string date
setters parse and then delegate to the `NaiveDate` instance, so they
are covered by the date constructors here. -/
inductive Reachable : QuandlRequest → Prop where
  | new (q : Quandl) (db ds : String) :
      Reachable (QuandlRequest.new_request q db ds)
  | set_limit {r : QuandlRequest} (n : Nat) :
      Reachable r → Reachable (r.set_limit n)
  | set_rows {r : QuandlRequest} (n : Nat) :
      Reachable r → Reachable (r.set_rows n)
  | set_column_index {r : QuandlRequest} (n : Nat) :
      Reachable r → Reachable (r.set_column_index n)
  | set_order {r : QuandlRequest} (o : Order) :
      Reachable r → Reachable (r.set_order o)
  | set_collapse {r : QuandlRequest} (c : Collapse) :
      Reachable r → Reachable (r.set_collapse c)
  | set_transform {r : QuandlRequest} (t : Transform) :
      Reachable r → Reachable (r.set_transform t)
  | set_start_date {r r2 : QuandlRequest} (d : NaiveDate) :
      Reachable r → r.set_start_date d = Except.ok r2 → Reachable r2
  | set_end_date {r r2 : QuandlRequest} (d : NaiveDate) :
      Reachable r → r.set_end_date d = Except.ok r2 → Reachable r2

/-- The date-range invariant: whenever both dates are set, the start
date is not after the end date. -/
def DateRangeInvariant (r : QuandlRequest) : Prop :=
  ∀ s e, r.start_date = some s → r.end_date = some e →
    NaiveDate.gtb s e = false

/-- C8: every request reachable from the factory through successful
setter calls satisfies the date-range invariant; every setter
preserves it. -/
theorem reachable_date_invariant (r : QuandlRequest)
    (hr : Reachable r) : DateRangeInvariant r := by
  induction hr with
  | new q db ds =>
      intro s e hs he
      simp [QuandlRequest.new_request, QuandlRequest.default] at hs
  | set_limit n _ ih => exact fun s e hs he => ih s e hs he
  | set_rows n _ ih => exact fun s e hs he => ih s e hs he
  | set_column_index n _ ih => exact fun s e hs he => ih s e hs he
  | set_order o _ ih => exact fun s e hs he => ih s e hs he
  | set_collapse c _ ih => exact fun s e hs he => ih s e hs he
  | set_transform t _ ih => exact fun s e hs he => ih s e hs he
  | set_start_date d _ hok ih =>
      rename_i r1 r2 _
      intro s e hs he
      cases hend : r1.end_date with
      | none =>
          simp [QuandlRequest.set_start_date, validate_date, hend] at hok
          rw [← hok] at he
          simp [hend] at he
      | some e1 =>
          simp only [QuandlRequest.set_start_date, validate_date, hend] at hok
          cases hgtb : NaiveDate.gtb d e1 with
          | true => simp [hgtb] at hok
          | false =>
              simp [hgtb] at hok
              rw [← hok] at hs he
              simp [hend] at hs he
              rw [← hs, ← he]
              exact hgtb
  | set_end_date d _ hok ih =>
      rename_i r1 r2 _
      intro s e hs he
      cases hstart : r1.start_date with
      | none =>
          simp [QuandlRequest.set_end_date, validate_date, hstart] at hok
          rw [← hok] at hs
          simp [hstart] at hs
      | some s1 =>
          simp only [QuandlRequest.set_end_date, validate_date, hstart] at hok
          cases hgtb : NaiveDate.gtb s1 d with
          | true => simp [hgtb] at hok
          | false =>
              simp [hgtb] at hok
              rw [← hok] at hs he
              simp [hstart] at hs he
              rw [← hs, ← he]
              exact hgtb

/-- Witness for C8: a reachable request with both dates set. -/
theorem reachable_date_invariant_witness :
    DateRangeInvariant
      (QuandlRequest.mk Quandl.new "WIKI" "AAPL" none none none
        (some ⟨2015, 2, 10⟩) (some ⟨2015, 3, 10⟩) none none none) :=
  reachable_date_invariant _
    (@Reachable.set_end_date
      (QuandlRequest.mk Quandl.new "WIKI" "AAPL" none none none
        (some ⟨2015, 2, 10⟩) none none none none)
      (QuandlRequest.mk Quandl.new "WIKI" "AAPL" none none none
        (some ⟨2015, 2, 10⟩) (some ⟨2015, 3, 10⟩) none none none)
      ⟨2015, 3, 10⟩
      (@Reachable.set_start_date
        (QuandlRequest.new_request Quandl.new "WIKI" "AAPL")
        (QuandlRequest.mk Quandl.new "WIKI" "AAPL" none none none
          (some ⟨2015, 2, 10⟩) none none none none)
        ⟨2015, 2, 10⟩
        (Reachable.new Quandl.new "WIKI" "AAPL") rfl) rfl)

/-- C4: in a single-entry listing, every two-column row whose first
column contains at least one `/` decodes to a record whose code is
everything after the last `/` in that column (the column is some
prefix, then `/`, then the code, and the code itself contains no `/`)
and whose desc is the second column; and if a row's first column
contains no `/` (all rows before it being well formed), the entire
listing fails with a remote-API error naming that column value,
returning no partial results. -/
theorem listing_row_decoding (rows : List CsvRow) :
    ((∀ row ∈ rows, SEPARATOR ∈ row.1.toList) →
      DatasetListCall.run ⟨[rows]⟩ = Except.ok (rows.map rowRecord) ∧
      ∀ row ∈ rows,
        (rowRecord row).desc = row.2 ∧
        SEPARATOR ∉ (rowRecord row).code.toList ∧
        ∃ pre : List Char,
          row.1.toList = pre ++ SEPARATOR :: (rowRecord row).code.toList) ∧
    (∀ pre row post, rows = pre ++ row :: post →
      (∀ p ∈ pre, SEPARATOR ∈ p.1.toList) →
      SEPARATOR ∉ row.1.toList →
      DatasetListCall.run ⟨[rows]⟩ =
        Except.error (Error.Quandl
          ("error: `/` not found in `" ++ row.1 ++ "`"))) := by
  constructor
  · intro h
    refine ⟨?_, ?_⟩
    · show collectRows rows = _
      exact collectRows_ok rows h
    · intro row hrow
      obtain ⟨h1, h2⟩ := rustSplit_getLastD SEPARATOR row.1.toList
      refine ⟨rfl, ?_, ?_⟩
      · simpa [rowRecord] using h1
      · obtain ⟨pre, hpre⟩ := h2 (h row hrow)
        exact ⟨pre, by simpa [rowRecord] using hpre⟩
  · intro pre row post hrows hpre hbad
    subst hrows
    show collectRows (pre ++ row :: post) = _
    exact collectRows_err pre row post hpre hbad

/-- Witness for C4: the spec's example row decodes to MYS5Y, a
multi-slash column keeps only the part after the last slash, and a
listing whose second row lacks a slash aborts whole. -/
theorem listing_row_decoding_witness :
    (∀ row ∈ ([(("YC/MYS5Y" : String), ("Malaysian Government 5-Year Bond Yield" : String))] : List CsvRow),
        SEPARATOR ∈ row.1.toList) ∧
    DatasetListCall.run ⟨[[("YC/MYS5Y", "Malaysian Government 5-Year Bond Yield")]]⟩ =
      Except.ok [{ code := "MYS5Y", desc := "Malaysian Government 5-Year Bond Yield" }] ∧
    DatasetListCall.run ⟨[[("A/B/C", "d")]]⟩ =
      Except.ok [{ code := "C", desc := "d" }] ∧
    DatasetListCall.run ⟨[[("YC/MYS5Y", "a"), ("NOSLASH", "b"), ("YC/X", "c")]]⟩ =
      Except.error (Error.Quandl "error: `/` not found in `NOSLASH`") := by
  refine ⟨by decide, ?_, ?_, ?_⟩
  · have h := ((listing_row_decoding
      [("YC/MYS5Y", "Malaysian Government 5-Year Bond Yield")]).1 (by decide)).1
    simpa using h
  · have h := ((listing_row_decoding [("A/B/C", "d")]).1 (by decide)).1
    simpa using h
  · have h := (listing_row_decoding
      [("YC/MYS5Y", "a"), ("NOSLASH", "b"), ("YC/X", "c")]).2
      [("YC/MYS5Y", "a")] ("NOSLASH", "b") [("YC/X", "c")] rfl (by decide)
      (by decide)
    simpa using h

/-- Counterexample to C6 as stated: an empty ZIP archive does not
yield an empty sequence of records as a success; it is a remote-API
error reporting an entry count of zero. -/
theorem listing_empty_archive_cex :
    DatasetListCall.run ⟨[]⟩ =
      Except.error (Error.Quandl
        "Expected one file in zip archive, found: 0") ∧
    DatasetListCall.run ⟨[]⟩ ≠ Except.ok [] := by
  refine ⟨rfl, ?_⟩
  intro h
  simp [DatasetListCall.run] at h

/-- C6 as amended: decoded records appear in the same order as the
CSV's rows (the result is the row-wise map over the rows, and an empty
CSV inside the single archive entry yields the empty sequence as a
success); an empty ZIP archive, however, is a remote-API error
reporting the entry count of zero, not a success. -/
theorem listing_order_and_empty (rows : List CsvRow)
    (h : ∀ row ∈ rows, SEPARATOR ∈ row.1.toList) :
    DatasetListCall.run ⟨[rows]⟩ = Except.ok (rows.map rowRecord) ∧
    DatasetListCall.run ⟨[[]]⟩ = Except.ok [] ∧
    DatasetListCall.run ⟨[]⟩ =
      Except.error (Error.Quandl
        "Expected one file in zip archive, found: 0") := by
  refine ⟨?_, rfl, rfl⟩
  show collectRows rows = _
  exact collectRows_ok rows h

/-- Witness for C6 (amended) on a two-row CSV: records come back in
row order. -/
theorem listing_order_and_empty_witness :
    DatasetListCall.run ⟨[[("YC/MYS5Y", "a"), ("YC/CHN7Y", "b")]]⟩ =
      Except.ok [{ code := "MYS5Y", desc := "a" }, { code := "CHN7Y", desc := "b" }] := by
  have h := (listing_order_and_empty
    [("YC/MYS5Y", "a"), ("YC/CHN7Y", "b")] (by decide)).1
  simpa using h

/-- C3: the data-query `run` branches on the HTTP status: on 200 OK a
JSON-decodable body is returned unchanged and an undecodable body is a
decode (SerdeJson) error; on any other status a JSON-decodable body
becomes a remote-API (Quandl) error whose message embeds the rendered
status code and the rendered payload, and an undecodable body is again
a decode error. -/
theorem run_status_branches {Body J : Type}
    (decode : Body → Except String J) (dbg : J → String)
    (status : Nat) (body : Body) :
    (status = 200 → ∀ v, decode body = Except.ok v →
      QuandlRequest.run decode dbg ⟨status, body⟩ = Except.ok v) ∧
    (∀ e, decode body = Except.error e →
      QuandlRequest.run decode dbg ⟨status, body⟩ =
        Except.error (Error.SerdeJson e)) ∧
    (status ≠ 200 → ∀ v, decode body = Except.ok v →
      ∃ msg, QuandlRequest.run decode dbg ⟨status, body⟩ =
          Except.error (Error.Quandl msg) ∧
        msg = "quandl request failed with code `" ++ statusDisplay status ++
          "` and response: " ++ dbg v ∧
        (statusDisplay status).toList <:+: msg.toList ∧
        (dbg v).toList <:+: msg.toList) := by
  refine ⟨?_, ?_, ?_⟩
  · intro hst v hv
    simp [QuandlRequest.run, hst, hv]
  · intro e he
    by_cases hst : status = 200 <;> simp [QuandlRequest.run, hst, he]
  · intro hst v hv
    refine ⟨_, by simp [QuandlRequest.run, hst, hv], rfl, ?_, ?_⟩
    · refine ⟨"quandl request failed with code `".toList,
        ("` and response: " ++ dbg v).toList, ?_⟩
      simp [String.toList, String.data_append, List.append_assoc]
    · refine ⟨("quandl request failed with code `" ++ statusDisplay status ++
        "` and response: ").toList, [], ?_⟩
      simp [String.toList, String.data_append, List.append_assoc]

/-- A concrete stand-in JSON decoder used only to witness
`run_status_branches`: an empty body is a decode failure, any other
body decodes to itself. -/
def witnessDecode (body : String) : Except String String :=
  if body = "" then Except.error "EOF while parsing a value" else Except.ok body

/-- Witness for C3: a 404 response with a decodable body yields the
remote-API error embedding `404` and the payload. -/
theorem run_status_branches_witness :
    ((404 : Nat) ≠ 200) ∧ witnessDecode "{}" = Except.ok "{}" ∧
    ∃ msg, QuandlRequest.run witnessDecode (fun j => j) ⟨404, "{}"⟩ =
        Except.error (Error.Quandl msg) ∧
      msg = "quandl request failed with code `" ++ statusDisplay 404 ++
        "` and response: " ++ "{}" ∧
      (statusDisplay 404).toList <:+: msg.toList ∧
      ("{}" : String).toList <:+: msg.toList :=
  ⟨by decide, by simp [witnessDecode],
    (run_status_branches witnessDecode (fun j => j) 404 "{}").2.2
      (by decide) "{}" (by simp [witnessDecode])⟩

/-- Counterexample to C7 as stated: with a database code containing a
space, the data-query URL builder neither produces a URL nor returns a
typed error — the final `uri.parse::<hyper::Uri>().unwrap()` panics
(modelled as the `none` outcome), so URL construction is not total in
the value-or-typed-error sense. -/
theorem get_uri_panic_cex :
    QuandlRequest.get_uri (QuandlRequest.new_request Quandl.new " " "AAPL") =
      none ∧
    (QuandlRequest.get_uri
      (QuandlRequest.new_request Quandl.new " " "AAPL")).isSome = false := by
  exact ⟨rfl, rfl⟩

/-- C7 as amended: the listing URL builder always returns a typed
result; the data-query URL builder applies no percent-encoding and
returns the assembled URL exactly when every character of it is legal
in a URI, but panics (`unwrap` on the parse, modelled as `none`)
rather than returning a typed configuration error when it is not. -/
theorem url_construction_amended (r : QuandlRequest) (c : DatasetListCall) :
    (r.get_uri_string.toList.all hyperUriAllowedChar = true →
      r.get_uri = some r.get_uri_string) ∧
    (r.get_uri_string.toList.all hyperUriAllowedChar = false →
      r.get_uri = none) ∧
    (∃ u, c.get_url = Except.ok u) := by
  have h38 : QUANDL_BASE_URL.length = 38 := rfl
  have h1 : ("/" : String).length = 1 := rfl
  have h10 : ("/data.json" : String).length = 10 := rfl
  have h1q : ("?" : String).length = 1 := rfl
  have hlen : ¬ r.get_uri_string.length = 0 := by
    simp only [QuandlRequest.get_uri_string]
    split <;> simp only [String.length_append, h38, h1, h10, h1q] <;> omega
  refine ⟨?_, ?_, ⟨_, rfl⟩⟩
  · intro hall
    show hyperUriParse r.get_uri_string = _
    unfold hyperUriParse
    rw [if_neg hlen, if_pos hall]
  · intro hall
    show hyperUriParse r.get_uri_string = _
    unfold hyperUriParse
    rw [if_neg hlen, if_neg (by rw [hall]; exact Bool.false_ne_true)]

/-- Witness for C7 (amended): the WIKI/AAPL request's URL is made only
of legal URI characters and is returned; a concrete listing call gets
a typed ok. -/
theorem url_construction_amended_witness :
    ((QuandlRequest.new_request Quandl.new "WIKI" "AAPL").get_uri_string.toList.all
        hyperUriAllowedChar = true) ∧
    (QuandlRequest.new_request Quandl.new "WIKI" "AAPL").get_uri =
      some (QuandlRequest.new_request Quandl.new "WIKI" "AAPL").get_uri_string ∧
    ∃ u, (Quandl.new.new_dataset_list_call "YC").get_url = Except.ok u := by
  refine ⟨by decide, ?_, ?_⟩
  · exact (url_construction_amended
      (QuandlRequest.new_request Quandl.new "WIKI" "AAPL")
      (Quandl.new.new_dataset_list_call "YC")).1 (by decide)
  · exact (url_construction_amended
      (QuandlRequest.new_request Quandl.new "WIKI" "AAPL")
      (Quandl.new.new_dataset_list_call "YC")).2.2

/-- Witness for C10 at a concrete listing call with an api_key set. -/
theorem dataset_list_get_url_witness :
    ((Quandl.new.set_api_key "secret").new_dataset_list_call "YC").get_url =
      Except.ok "https://www.quandl.com/api/v3/databases/YC/codes.csv" := by
  have h := (dataset_list_get_url
    ((Quandl.new.set_api_key "secret").new_dataset_list_call "YC")).1
  simpa using h

end Quandl
